import Mathlib

/-!
# Verification of the Scorpion-Scraper match-ingestion pipeline

Shallow embedding of `scrape_matches.py` and the retrying page fetcher of
`scrape_tournament_urls.py`, together with proofs of the behavioural claims
about score parsing, playoff/round-robin extraction, stage skipping, date
normalization and the merge-with-dedup step.

Texts (score cells, stage labels, dates) are modelled as `List Char` /
`String`; machine integers of the Python code are modelled as `Int` / `Nat`
(Python integers are unbounded, so no modular arithmetic is needed);
playoff fractions (Python floats holding small dyadic values plus the 0.9
sentinel) are modelled as `ℚ`.
-/

set_option autoImplicit false

namespace Scorpion

/-! ## Text primitives -/

/-- Whitespace characters recognised by Python's `str.strip()` / `int()`
(restricted to the characters that can occur in the scraped ASCII/Latin-1
texts). -/
def isPyWS (c : Char) : Bool :=
  c = ' ' || c = '\t' || c = '\n' || c = '\r' || c = '\x0b' || c = '\x0c' || c = '\xa0'

/-- Python `s.strip()`: remove leading and trailing whitespace. -/
def pyStrip (s : List Char) : List Char :=
  ((s.dropWhile isPyWS).reverse.dropWhile isPyWS).reverse

/-- Python `s.replace(pat, '')` (left-to-right, non-overlapping removal of
every occurrence of `pat`), structured with a fuel argument so that it is
structurally recursive (each step consumes at least one character, so
`s.length` fuel always suffices). -/
def stripTokFuel (pat : List Char) : Nat → List Char → List Char
  | _, [] => []
  | 0, s => s
  | fuel + 1, c :: rest =>
    if pat.isPrefixOf (c :: rest) ∧ pat ≠ [] then
      stripTokFuel pat fuel (rest.drop (pat.length - 1))
    else
      c :: stripTokFuel pat fuel rest

def stripTok (pat : List Char) (s : List Char) : List Char :=
  stripTokFuel pat s.length s

/-- The function `clean_score_text`: strip the decoration tokens `(OT)`, `(W.O)`,
non-breaking spaces, asterisks and newlines from a raw score text, in the
same order as the Python `replace` chain. -/
def clean_score_text (s : List Char) : List Char :=
  stripTok "\n".toList
    (stripTok "*".toList
      (stripTok "\xa0".toList
        (stripTok "(W.O)".toList
          (stripTok "(OT)".toList s))))

/-- Python `s.split(sep)` for a one-character separator. -/
def splitOnChar (sep : Char) : List Char → List (List Char)
  | [] => [[]]
  | c :: rest =>
    if c = sep then
      [] :: splitOnChar sep rest
    else
      match splitOnChar sep rest with
      | [] => [[c]]
      | h :: t => (c :: h) :: t

/-- Python `needle in hay` for strings (substring test). -/
def isSub (needle : List Char) : List Char → Bool
  | [] => needle.isEmpty
  | c :: rest => needle.isPrefixOf (c :: rest) || isSub needle rest

/-- Python `s.lower()` (ASCII range, which covers the scraped labels). -/
def toLowerL (s : List Char) : List Char :=
  s.map Char.toLower

/-- Value of a list of decimal digits. -/
def digitsVal (s : List Char) : Nat :=
  s.foldl (fun a c => 10 * a + (c.toNat - '0'.toNat)) 0

/-- Grammar of the digit part accepted by Python `int()`: non-empty,
digits with single underscores allowed strictly between digits. -/
def underscoreOk (l : List Char) : Bool :=
  (match l with | [] => false | c :: _ => c.isDigit) &&
  (match l.getLast? with | some c => c.isDigit | none => false) &&
  l.all (fun c => c.isDigit || c = '_') &&
  (l.zip l.tail).all (fun p => !(p.1 = '_' && p.2 = '_'))

/-- Digit-part of Python `int()`: value of the digits with underscores
removed, when the grammar accepts. -/
def digitsCore (l : List Char) : Option Nat :=
  if underscoreOk l then some (digitsVal (l.filter (fun c => c ≠ '_'))) else none

/-- Sign-and-digits part of Python `int()` after whitespace stripping. -/
def pyIntCore : List Char → Option Int
  | [] => none
  | c :: t =>
    if c = '+' then (digitsCore t).map Int.ofNat
    else if c = '-' then (digitsCore t).map (fun n => -(n : Int))
    else (digitsCore (c :: t)).map Int.ofNat

/-- Python `int(s)` on a string: optional surrounding whitespace, optional
sign, then a digit group; `none` models the `ValueError`. -/
def pyInt? (s : List Char) : Option Int :=
  pyIntCore (pyStrip s)

/-! ## Score-cell processing

`get_match_info` treats one score cell by: checking `':' in score.text` on
the raw text, cleaning with `clean_score_text`, splitting on `':'`, and
converting both parts with `int`; any `ValueError` (wrong number of parts
or a non-integer part) drops the cell.  The round-robin branch inlines the
identical `replace` chain, so both branches share this function. -/

def processScoreCell (raw : List Char) : Option (Int × Int) :=
  if ':' ∈ raw then
    match splitOnChar ':' (clean_score_text raw) with
    | [x, y] =>
      match pyInt? x, pyInt? y with
      | some a, some b => some (a, b)
      | _, _ => none
    | _ => none
  else none

/-- The overtime flag: `Yes` when the raw text contains `(OT)`, else `No`. -/
def overtimeFlag (raw : List Char) : String :=
  if isSub "(OT)".toList raw then "Yes" else "No"

/-! ## Playoff stage fractions -/

/-- The dict `PLAYOFF_STAGE_MAP`, in Python-dict insertion order (the order the
`for key, val in ...items()` loop observes). -/
def PLAYOFF_STAGE_MAP : List (String × ℚ) :=
  [("1/64 final", 1/64),
   ("1/32 final", 1/32),
   ("1/16 final", 1/16),
   ("1/8 final", 1/8),
   ("Quarterfinal", 1/4),
   ("Semi-final", 1/2),
   ("Final", 1),
   ("Match for the third place", 9/10)]

/-- The function `get_playoff_stage_fraction`: lower-case and strip the label, then
return the value of the first map entry whose lower-cased key is a
substring of the label; `none` for an unrecognized label. -/
def get_playoff_stage_fraction (stage_name : String) : Option ℚ :=
  let s := toLowerL (pyStrip stage_name.toList)
  PLAYOFF_STAGE_MAP.findSome? fun kv =>
    if isSub (toLowerL kv.1.toList) s then some kv.2 else none

/-! ## Stage documents

A stage ("Schedule and results") page is modelled at the granularity the
scraper inspects it: `div.subheader` labels, `div.gr_match` blocks holding
`tr.series-container` rows (playoff), `table.grTable` tables holding
`tr[id^=match]` rows (round-robin), optionally wrapped in
`div.saved-matches` sections.  Anchors are modelled by their extracted
`(text.strip(), optional numeric id from the /user/id/(\d+)/ href)` pair,
the output of `extract_name_and_id`; cell texts are stored stripped where
the code calls `.strip()` and raw where it does not (score cells). -/

/-- One `tr.series-container` row: the anchors of the
`td[class^=ma_name] a` selector and the raw texts of the
`td[class^=ma_result_]` cells (last cell = aggregate series score). -/
structure SeriesRow where
  players : List (String × Option String)
  scoreCells : List String
deriving DecidableEq, Repr

/-- One `tr[id^=match]` round-robin fixture row: optional anchor and
fallback cell text for each player, and the optional raw score-cell
text. -/
structure RRRow where
  name1Anchor : Option (String × Option String)
  name1Text : String
  name2Anchor : Option (String × Option String)
  name2Text : String
  scoreCell : Option String
deriving DecidableEq, Repr

/-- A top-level element of a stage page. -/
inductive PageItem where
  | subheader (label : String)
  | grMatch (series : List SeriesRow)
  | grTable (ths : List String) (rows : List RRRow)
deriving DecidableEq, Repr

/-- A stage page node: either a `div.saved-matches` wrapper or a plain
element. -/
inductive TopNode where
  | saved (items : List PageItem)
  | plain (item : PageItem)
deriving DecidableEq, Repr

def TopNode.isSaved : TopNode → Bool
  | .saved _ => true
  | .plain _ => false

/-- Model of the `soup.find` + `decompose` of the saved-matches div: remove the
first saved-matches section (only the first — `find` returns a single
element). -/
def removeFirstSaved : List TopNode → List TopNode
  | [] => []
  | .saved _ :: rest => rest
  | .plain i :: rest => .plain i :: removeFirstSaved rest

/-- The elements any subsequent `soup.select(...)` sees: descendants of
remaining saved wrappers included. -/
def flattenDoc : List TopNode → List PageItem
  | [] => []
  | .saved items :: rest => items ++ flattenDoc rest
  | .plain i :: rest => i :: flattenDoc rest

/-- One extracted match tuple of `get_match_info` (player ids still
strings at this level, as returned by `extract_name_and_id`). -/
structure MatchRec where
  url : String
  p1 : String
  p1id : Option String
  p2 : String
  p2id : Option String
  g1 : Int
  g2 : Int
  overtime : String
  stage : String
  round : Option ℚ
  gameNo : Option Nat
deriving DecidableEq, Repr

/-- The `for game_number, score in enumerate(scores[:-1], start=1)` loop:
a failing cell is skipped (`continue`) but still advances the 1-based
position. -/
def seriesGames (gameNo : Nat) : List String → List (Nat × Int × Int × String)
  | [] => []
  | c :: rest =>
    match processScoreCell c.toList with
    | some (a, b) => (gameNo, a, b, overtimeFlag c.toList) :: seriesGames (gameNo + 1) rest
    | none => seriesGames (gameNo + 1) rest

/-- Records of one playoff series row: requires at least two player
anchors, drops the final aggregate cell, emits one record per parsable
game cell. -/
def extractSeries (url : String) (frac : Option ℚ) (sr : SeriesRow) : List MatchRec :=
  match sr.players with
  | p1 :: p2 :: _ =>
    (seriesGames 1 sr.scoreCells.dropLast).map fun g =>
      ⟨url, p1.1, p1.2, p2.1, p2.2, g.2.1, g.2.2.1, g.2.2.2, "Playoff", frac, some g.1⟩
  | _ => []

def PageItem.isSubheader : PageItem → Bool
  | .subheader _ => true
  | _ => false

def PageItem.grMatchSeries? : PageItem → Option (List SeriesRow)
  | .grMatch s => some s
  | _ => none

def PageItem.grTable? : PageItem → Option (List String × List RRRow)
  | .grTable ths rows => some (ths, rows)
  | _ => none

/-- Grouping realised by `find_all_next('div', class_='gr_match')` plus the
previous-sibling subheader check: each subheader takes the `gr_match`
blocks that follow it up to the next subheader (blocks before the first
subheader are never visited). -/
def sections : List PageItem → List (String × List (List SeriesRow))
  | [] => []
  | .subheader l :: rest =>
    (l, (rest.takeWhile (fun i => !i.isSubheader)).filterMap PageItem.grMatchSeries?)
      :: sections rest
  | _ :: rest => sections rest

/-! ## Round-robin extraction -/

/-- The selector `th:-soup-contains("Tour")` via `select_one`: first `th` text containing
`Tour`. -/
def findTourHeader (ths : List String) : Option String :=
  ths.find? fun t => isSub "Tour".toList t.toList

/-- Whitespace class of the regex `\s` (character range occurring in the
scraped texts). -/
def isRegexWS (c : Char) : Bool :=
  c = ' ' || c = '\t' || c = '\n' || c = '\r' || c = '\x0b' || c = '\x0c'

/-- The regex search for a digit group before `Tour`: first maximal digit run followed
by optional whitespace and the literal `Tour`. -/
def tourScan : List Char → Option Nat
  | [] => none
  | c :: rest =>
    if c.isDigit then
      if "Tour".toList.isPrefixOf (((c :: rest).dropWhile Char.isDigit).dropWhile isRegexWS) then
        some (digitsVal ((c :: rest).takeWhile Char.isDigit))
      else tourScan rest
    else tourScan rest

/-- Round number of a round-robin table: `float(...)` of the regex group
when the header is present and matches, else `None`. -/
def tableRoundNumber (ths : List String) : Option ℚ :=
  (findTourHeader ths).bind fun t => (tourScan t.toList).map fun n => (n : ℚ)

/-- Player-name fallback: `extract_name_and_id` result unless falsy, else
the stripped `td` text (the id from the anchor is kept either way). -/
def rrPlayerName (anchor : Option (String × Option String)) (tdText : String) : String :=
  match anchor with
  | some (n, _) => if n = "" then tdText else n
  | none => tdText

def rrPlayerId (anchor : Option (String × Option String)) : Option String :=
  anchor.bind fun a => a.2

/-- One round-robin fixture row: emits a record when the score cell exists,
contains a colon, and both parts convert to `int`. -/
def extractRRRow (url : String) (round : Option ℚ) (r : RRRow) : Option MatchRec :=
  match r.scoreCell with
  | some sc =>
    (processScoreCell sc.toList).map fun g =>
      ⟨url, rrPlayerName r.name1Anchor r.name1Text, rrPlayerId r.name1Anchor,
        rrPlayerName r.name2Anchor r.name2Text, rrPlayerId r.name2Anchor,
        g.1, g.2, overtimeFlag sc.toList, "Round-Robin", round, none⟩
  | none => none

/-! ## `get_match_info` -/

/-- The function `get_match_info`: remove the first saved-matches section, classify by
presence of a `tr.series-container` row, then run the playoff or the
round-robin extractor. -/
def get_match_info (url : String) (doc : List TopNode) : List MatchRec :=
  let items := flattenDoc (removeFirstSaved doc)
  let isPlayoff := items.any fun i =>
    match i with
    | .grMatch s => !s.isEmpty
    | _ => false
  if isPlayoff then
    (sections items).flatMap fun sec =>
      sec.2.flatten.flatMap (extractSeries url (get_playoff_stage_fraction sec.1))
  else
    (items.filterMap PageItem.grTable?).flatMap fun tb =>
      tb.2.filterMap (extractRRRow url (tableRoundNumber tb.1))

/-! ## Tournament orchestrator (`fetch_tournament_data` stage loop)

The loop over `stage_data` skips every stage whose id is in
`existing_stage_ids` without fetching its page, and assembles the matches
of the remaining stages with the tournament-level context.  A stage entry
carries the page the fetch would return; the first component of the result
is the log of stage ids actually fetched. -/

/-- Model of `int(s) if s.isdigit() else None`. -/
def toIntOpt (s : String) : Option Int :=
  if s.toList ≠ [] ∧ s.toList.all Char.isDigit then
    some (Int.ofNat (digitsVal s.toList))
  else none

/-- One stage of the `stage_data` list: id, page URL, the page itself, and
the stage-sequence text. -/
structure StageEntry where
  sid : String
  url : String
  doc : List TopNode
  seq : String
deriving Repr

/-- One row of the assembled per-tournament batch (the 15-column tuple of
lines 265–281). -/
structure AssembledRow where
  stageID : Option Int
  player1 : String
  player1ID : Option Int
  player2 : String
  player2ID : Option Int
  goals1 : Int
  goals2 : Int
  overtime : String
  stage : String
  roundNumber : Option ℚ
  playoffGameNumber : Option Nat
  date : String
  tournamentName : String
  tournamentID : Int
  stageSequence : Option Int
deriving DecidableEq, Repr

def assembleRow (date tname : String) (tid : Int) (sid seq : String)
    (m : MatchRec) : AssembledRow :=
  ⟨toIntOpt sid, m.p1, m.p1id.bind toIntOpt, m.p2, m.p2id.bind toIntOpt,
    m.g1, m.g2, m.overtime, m.stage, m.round, m.gameNo,
    date, tname, tid, toIntOpt seq⟩

/-- The stage loop: `(fetched stage ids, assembled rows)`. -/
def runStages (existing : List String) (date tname : String) (tid : Int) :
    List StageEntry → List String × List AssembledRow
  | [] => ([], [])
  | st :: rest =>
    if st.sid ∈ existing then
      runStages existing date tname tid rest
    else
      let r := runStages existing date tname tid rest
      (st.sid :: r.1,
        (get_match_info st.url st.doc).map (assembleRow date tname tid st.sid st.seq) ++ r.2)

/-- Line 226: `element.text.strip() if element else 'Unknown'`. -/
def tournamentTypeOf (cell : Option String) : String :=
  cell.getD "Unknown"

/-! ## Retrying page fetcher (`scrape_tournament_urls.fetch_page`) -/

def RETRY_LIMIT : Nat := 3

/-- What one `requests.get` attempt can produce. -/
inductive FetchOutcome where
  | ok (status : Nat) (body : String)
  | netErr
deriving DecidableEq, Repr

/-- The `for attempt in range(retries)` loop: status 200 returns the body,
any other status breaks immediately, a network exception sleeps once and
retries.  Result: `(response, attempts performed, sleeps performed)`. -/
def fetch_page_aux (outcomes : Nat → FetchOutcome) :
    Nat → Nat → Nat → Option String × Nat × Nat
  | attempt, 0, sleeps => (none, attempt, sleeps)
  | attempt, remaining + 1, sleeps =>
    match outcomes attempt with
    | .ok status body =>
      if status = 200 then (some body, attempt + 1, sleeps)
      else (none, attempt + 1, sleeps)
    | .netErr => fetch_page_aux outcomes (attempt + 1) remaining (sleeps + 1)

def fetch_page_retry (retries : Nat) (outcomes : Nat → FetchOutcome) :
    Option String × Nat × Nat :=
  fetch_page_aux outcomes 0 retries 0

/-! ## Date normalization (line 329–331)

`pd.to_datetime(x, format='%d.%m.%Y', errors='coerce').strftime('%Y-%m-%d')`:
the parse coerces failures to `NaT`, but `.strftime` is then applied
unconditionally, and `NaT.strftime` raises
`ValueError("NaTType does not support strftime")`; the `Except` models
that exception. -/

def isLeap (y : Nat) : Bool :=
  y % 4 = 0 && (y % 100 ≠ 0 || y % 400 = 0)

def daysInMonth (y m : Nat) : Nat :=
  if m = 1 ∨ m = 3 ∨ m = 5 ∨ m = 7 ∨ m = 8 ∨ m = 10 ∨ m = 12 then 31
  else if m = 4 ∨ m = 6 ∨ m = 9 ∨ m = 11 then 30
  else if m = 2 then (if isLeap y then 29 else 28)
  else 0

/-- The `%d.%m.%Y` parse, as `strptime` reads it: 1-2 digit day and month, 4
digit year, then calendar validation (the year bound approximates the
`pd.Timestamp` range at day granularity). -/
def parseDDMMYYYY (s : String) : Option (Nat × Nat × Nat) :=
  match splitOnChar '.' s.toList with
  | [ds, ms, ys] =>
    if ds.all Char.isDigit ∧ 1 ≤ ds.length ∧ ds.length ≤ 2 ∧
       ms.all Char.isDigit ∧ 1 ≤ ms.length ∧ ms.length ≤ 2 ∧
       ys.all Char.isDigit ∧ ys.length = 4 then
      let d := digitsVal ds
      let m := digitsVal ms
      let y := digitsVal ys
      if 1 ≤ m ∧ m ≤ 12 ∧ 1 ≤ d ∧ d ≤ daysInMonth y m ∧ 1678 ≤ y ∧ y ≤ 2261 then
        some (d, m, y)
      else none
    else none
  | _ => none

def pad2 (n : Nat) : String :=
  if n < 10 then "0" ++ toString n else toString n

def pad4 (n : Nat) : String :=
  if n < 10 then "000" ++ toString n
  else if n < 100 then "00" ++ toString n
  else if n < 1000 then "0" ++ toString n
  else toString n

/-- The per-cell date lambda of line 329–331 applied to one source text. -/
def normalizeDate (x : String) : Except String String :=
  match parseDDMMYYYY x with
  | some dmy => .ok (pad4 dmy.2.2 ++ "-" ++ pad2 dmy.2.1 ++ "-" ++ pad2 dmy.1)
  | none => .error "NaTType does not support strftime"

/-- The lambda including its `pd.notnull` guard (`None` cells pass
through). -/
def normalizeDateCell (x : Option String) : Except String (Option String) :=
  match x with
  | none => .ok none
  | some s => (normalizeDate s).map some

/-! ## Merge & dedup (lines 337–339 and 398–402)

Rows of the persisted dataset; the composite dedup key is
`(TournamentID, StageID, Player1ID, Player2ID, GoalsPlayer1, GoalsPlayer2,
Date)`, with `None`/`NaN` keys compared equal (as
`DataFrame.drop_duplicates` does). -/

structure Row where
  stageID : Option Int
  player1 : String
  player1ID : Option Int
  player2 : String
  player2ID : Option Int
  goals1 : Int
  goals2 : Int
  overtime : String
  stage : String
  roundNumber : Option ℚ
  playoffGameNumber : Option Nat
  date : Option String
  tournamentName : String
  tournamentID : Option Int
  stageSequence : Option Int
deriving DecidableEq, Repr

/-- The composite dedup key of line 401. -/
structure RowKey where
  tournamentID : Option Int
  stageID : Option Int
  player1ID : Option Int
  player2ID : Option Int
  goals1 : Int
  goals2 : Int
  date : Option String
deriving DecidableEq, Repr

def rowKey (r : Row) : RowKey :=
  ⟨r.tournamentID, r.stageID, r.player1ID, r.player2ID, r.goals1, r.goals2, r.date⟩

/-- Predicate of the draw filter: Stage is Playoff and the two goal counts agree. -/
def isPlayoffDraw (r : Row) : Bool :=
  decide (r.stage = "Playoff" ∧ r.goals1 = r.goals2)

/-- Line 338: `df = df[~((df['Stage'] == 'Playoff') & (GoalsPlayer1 == GoalsPlayer2))]`. -/
def removePlayoffDraws (l : List Row) : List Row :=
  l.filter fun r => !isPlayoffDraw r

/-- Model of `drop_duplicates` on the key with the default keep-first policy: keep
the first row of each key, in order. -/
def dedupBy {α κ : Type} [DecidableEq κ] (f : α → κ) : List α → List α
  | [] => []
  | a :: rest => a :: dedupBy f (rest.filter fun b => decide (f b ≠ f a))
termination_by l => l.length
decreasing_by
  simp only [List.length_cons]
  exact Nat.lt_succ_of_le (List.length_filter_le _ _)

/-- Lines 398–402: `pd.concat([existing_df, df])` followed by
`drop_duplicates` on the composite key. -/
def mergeStep (existing incoming : List Row) : List Row :=
  dedupBy rowKey (existing ++ incoming)

/-! ## Properties of the keep-first dedup -/

section Dedup

variable {α κ : Type} [DecidableEq κ] {f : α → κ}

theorem mem_of_mem_dedupBy : ∀ {l : List α} {x : α}, x ∈ dedupBy f l → x ∈ l := by
  intro l
  induction l using dedupBy.induct (f := f) with
  | case1 => intro x h; simp [dedupBy] at h
  | case2 a rest ih =>
    intro x h
    rw [dedupBy] at h
    rcases List.mem_cons.mp h with h | h
    · exact h ▸ List.mem_cons_self _ _
    · exact List.mem_cons_of_mem _ (List.mem_of_mem_filter (ih h))

theorem mem_map_dedupBy {l : List α} {y : κ} :
    y ∈ (dedupBy f l).map f ↔ y ∈ l.map f := by
  induction l using dedupBy.induct (f := f) with
  | case1 => simp [dedupBy]
  | case2 a rest ih =>
    rw [dedupBy]
    simp only [List.map_cons, List.mem_cons, ih]
    constructor
    · rintro (h | h)
      · exact Or.inl h
      · rcases List.mem_map.mp h with ⟨x, hx, rfl⟩
        exact Or.inr (List.mem_map_of_mem f (List.mem_of_mem_filter hx))
    · rintro (h | h)
      · exact Or.inl h
      · rcases List.mem_map.mp h with ⟨x, hx, rfl⟩
        by_cases hfa : f x = f a
        · exact Or.inl hfa
        · exact Or.inr (List.mem_map_of_mem f
            (List.mem_filter.mpr ⟨hx, by simpa using hfa⟩))

theorem nodup_map_dedupBy {l : List α} : ((dedupBy f l).map f).Nodup := by
  induction l using dedupBy.induct (f := f) with
  | case1 => simp [dedupBy]
  | case2 a rest ih =>
    rw [dedupBy]
    simp only [List.map_cons, List.nodup_cons]
    refine ⟨fun hmem => ?_, ih⟩
    rcases List.mem_map.mp (mem_map_dedupBy.mp hmem) with ⟨x, hx, hfx⟩
    have := (List.mem_filter.mp hx).2
    simp only [decide_eq_true_iff] at this
    exact this hfx

theorem dedupBy_eq_self {l : List α} (h : (l.map f).Nodup) : dedupBy f l = l := by
  induction l with
  | nil => simp [dedupBy]
  | cons a rest ih =>
    rw [dedupBy]
    simp only [List.map_cons, List.nodup_cons] at h
    have hf : rest.filter (fun b => decide (f b ≠ f a)) = rest := by
      refine List.filter_eq_self.mpr fun b hb => ?_
      simp only [decide_eq_true_iff]
      exact fun heq => h.1 (heq ▸ List.mem_map_of_mem f hb)
    rw [hf, ih h.2]

theorem dedupBy_append : ∀ (l₁ l₂ : List α),
    dedupBy f (l₁ ++ l₂) =
      dedupBy f l₁ ++ dedupBy f (l₂.filter fun b => decide (f b ∉ l₁.map f)) := by
  intro l₁
  induction l₁ using dedupBy.induct (f := f) with
  | case1 =>
    intro l₂
    have : l₂.filter (fun b => decide (f b ∉ ([] : List α).map f)) = l₂ :=
      List.filter_eq_self.mpr fun b _ => by simp
    simp [dedupBy, this]
  | case2 a l₁ ih =>
    intro l₂
    rw [List.cons_append, dedupBy, dedupBy, List.filter_append,
      ih (l₂.filter fun b => decide (f b ≠ f a)), List.cons_append]
    have hpt : (l₂.filter fun b => decide (f b ≠ f a)).filter
          (fun b => decide (f b ∉ (l₁.filter fun b => decide (f b ≠ f a)).map f)) =
        l₂.filter fun b => decide (f b ∉ (a :: l₁).map f) := by
      rw [List.filter_filter]
      refine List.filter_congr fun b _ => ?_
      rcases Decidable.em (f b = f a) with hba | hba
      · simp [hba]
      · have hq : decide (f b ≠ f a) = true := decide_eq_true hba
        rw [hq, Bool.and_true]
        refine decide_eq_decide.mpr ?_
        constructor
        · intro hnot hmem
          rcases List.mem_map.mp hmem with ⟨x, hx, hfx⟩
          rcases List.mem_cons.mp hx with rfl | hx'
          · exact hba hfx.symm
          · refine hnot (hfx ▸ List.mem_map_of_mem f (List.mem_filter.mpr ⟨hx', ?_⟩))
            simp only [decide_eq_true_iff]
            intro h
            exact hba (hfx ▸ h)
        · intro hnot hmem
          rcases List.mem_map.mp hmem with ⟨x, hx, hfx⟩
          exact hnot (hfx ▸ List.mem_map_of_mem f
            (List.mem_cons_of_mem a (List.mem_of_mem_filter hx)))
    rw [hpt]

end Dedup

theorem countP_not_add_countP {α : Type} (p : α → Bool) (l : List α) :
    l.countP (fun a => !p a) + l.countP p = l.length := by
  induction l with
  | nil => simp
  | cons a l ih =>
    rcases hpa : p a with _ | _ <;>
      simp [List.countP_cons, hpa, ← ih] <;> omega

/-! ## Claim C1 -/

/-- C1: the merge step filters every playoff draw out of the incoming
batch before concatenation (line 338 runs on the incoming frame before the
line 399–401 concat/dedup), so a persisted dataset that contains no
playoff draw never acquires one: every row of the filtered batch is
draw-free, and every row of the merged dataset built from a draw-free
persisted dataset and a filtered batch is draw-free. -/
theorem no_playoff_draw_persisted :
    (∀ (batch : List Row) (r : Row), r ∈ removePlayoffDraws batch → isPlayoffDraw r = false) ∧
    (∀ (existing batch : List Row), (∀ r ∈ existing, isPlayoffDraw r = false) →
      ∀ r ∈ mergeStep existing (removePlayoffDraws batch), isPlayoffDraw r = false) := by
  constructor
  · intro batch r hr
    have h := (List.mem_filter.mp hr).2
    simpa using h
  · intro existing batch hex r hr
    rcases List.mem_append.mp (mem_of_mem_dedupBy hr) with h | h
    · exact hex r h
    · have h := (List.mem_filter.mp h).2
      simpa using h

/-- A regular playoff row (3:1). -/
def c1okRow : Row :=
  ⟨some 5, "A", some 10, "B", some 11, 3, 1, "No", "Playoff", some (1/4), some 1,
    some "2023-03-11", "T", some 100, some 1⟩

/-- A playoff draw row (2:2). -/
def c1drawRow : Row :=
  ⟨some 5, "A", some 10, "B", some 11, 2, 2, "No", "Playoff", some (1/4), some 2,
    some "2023-03-11", "T", some 100, some 1⟩

theorem no_playoff_draw_persisted_witness : isPlayoffDraw c1okRow = false :=
  no_playoff_draw_persisted.2 [c1okRow] [c1drawRow] (by decide) c1okRow
    (by simp +decide [mergeStep, removePlayoffDraws, dedupBy])

/-! ## Claim C2

The `N + M − K` row count is false as universally stated: an incoming
batch may repeat the composite key internally (e.g. two games of one
playoff series with the same score on the same date — the key omits
`PlayoffGameNumber`), and `drop_duplicates` collapses those too.  It holds
when both sides are internally duplicate-free on the key. -/

/-- A persisted row whose key differs from the incoming ones. -/
def c2e0 : Row :=
  ⟨some 4, "C", some 20, "D", some 21, 2, 0, "No", "Playoff", some (1/2), some 1,
    some "2023-03-11", "T", some 100, some 1⟩

/-- Game 1 of a series, 3:1. -/
def c2b1 : Row :=
  ⟨some 5, "A", some 10, "B", some 11, 3, 1, "No", "Playoff", some (1/4), some 1,
    some "2023-03-11", "T", some 100, some 1⟩

/-- Game 3 of the same series, also 3:1: same composite key as `c2b1`. -/
def c2b3 : Row :=
  ⟨some 5, "A", some 10, "B", some 11, 3, 1, "No", "Playoff", some (1/4), some 3,
    some "2023-03-11", "T", some 100, some 1⟩

/-- C2 counterexample: N = 1 persisted row, M = 2 incoming rows, K = 0 of
them coincide with a persisted row on the composite key, yet the merge
produces 2 rows, not N + M − K = 3 (the two incoming rows share a key). -/
theorem merge_row_count_counterexample :
    ([c2b1, c2b3].countP fun b => decide (rowKey b ∈ [c2e0].map rowKey)) = 0 ∧
    (mergeStep [c2e0] [c2b1, c2b3]).length = 2 ∧
    [c2e0].length + [c2b1, c2b3].length - 0 = 3 ∧ (2 : Nat) ≠ 3 := by
  refine ⟨by decide, ?_, by decide, by decide⟩
  simp +decide [mergeStep, dedupBy]

/-- C2 amended: when the persisted dataset and the incoming batch are each
internally duplicate-free on the composite key, merging N persisted rows
with M incoming rows of which K coincide with a persisted row on the key
yields exactly N + M − K rows. -/
theorem merge_row_count (existing incoming : List Row)
    (h1 : (existing.map rowKey).Nodup) (h2 : (incoming.map rowKey).Nodup) :
    (mergeStep existing incoming).length =
      existing.length + incoming.length -
        incoming.countP (fun b => decide (rowKey b ∈ existing.map rowKey)) := by
  unfold mergeStep
  rw [dedupBy_append, dedupBy_eq_self h1]
  have hnd : ((incoming.filter fun b =>
      decide (rowKey b ∉ existing.map rowKey)).map rowKey).Nodup :=
    h2.sublist ((List.filter_sublist _).map rowKey)
  rw [dedupBy_eq_self hnd, List.length_append]
  have hpred : (fun b => decide (rowKey b ∉ existing.map rowKey)) =
      fun b => !(decide (rowKey b ∈ existing.map rowKey)) := by
    funext b
    exact decide_not
  rw [hpred, ← List.countP_eq_length_filter]
  have htot := countP_not_add_countP
    (fun b => decide (rowKey b ∈ existing.map rowKey)) incoming
  omega

theorem merge_row_count_witness :
    (mergeStep [c2e0] [c2b1]).length =
      [c2e0].length + [c2b1].length -
        [c2b1].countP (fun b => decide (rowKey b ∈ [c2e0].map rowKey)) :=
  merge_row_count [c2e0] [c2b1] (by decide) (by decide)

/-! ## Claim C3: score-cell lemmas -/

theorem mem_of_mem_stripTokFuel (pat : List Char) :
    ∀ (fuel : Nat) (s : List Char) (a : Char), a ∈ stripTokFuel pat fuel s → a ∈ s := by
  intro fuel
  induction fuel with
  | zero =>
    intro s a h
    cases s with
    | nil => exact h
    | cons c rest => exact h
  | succ fuel ih =>
    intro s a h
    cases s with
    | nil => exact h
    | cons c rest =>
      rw [stripTokFuel] at h
      by_cases hp : pat.isPrefixOf (c :: rest) ∧ pat ≠ []
      · rw [if_pos hp] at h
        exact List.mem_cons_of_mem _ (List.drop_subset _ _ (ih _ a h))
      · rw [if_neg hp] at h
        rcases List.mem_cons.mp h with rfl | h'
        · exact List.mem_cons_self _ _
        · exact List.mem_cons_of_mem _ (ih rest a h')

theorem mem_of_mem_stripTok {pat s : List Char} {a : Char}
    (h : a ∈ stripTok pat s) : a ∈ s :=
  mem_of_mem_stripTokFuel pat s.length s a h

/-- The cleanup only deletes characters. -/
theorem mem_of_mem_clean {s : List Char} {a : Char}
    (h : a ∈ clean_score_text s) : a ∈ s := by
  unfold clean_score_text at h
  exact mem_of_mem_stripTok (mem_of_mem_stripTok (mem_of_mem_stripTok
    (mem_of_mem_stripTok (mem_of_mem_stripTok h))))

theorem splitOnChar_of_not_mem {sep : Char} : ∀ {s : List Char}, sep ∉ s →
    splitOnChar sep s = [s] := by
  intro s
  induction s with
  | nil => intro _; rfl
  | cons c rest ih =>
    intro h
    have hc : ¬ c = sep := fun he => h (he ▸ List.mem_cons_self _ _)
    rw [splitOnChar, if_neg hc, ih fun hm => h (List.mem_cons_of_mem _ hm)]

theorem splitOnChar_append {sep : Char} {s₁ : List Char} (s₂ : List Char)
    (h : sep ∉ s₁) :
    splitOnChar sep (s₁ ++ sep :: s₂) = s₁ :: splitOnChar sep s₂ := by
  induction s₁ with
  | nil => simp [splitOnChar]
  | cons c rest ih =>
    have hc : ¬ c = sep := fun he => h (he ▸ List.mem_cons_self _ _)
    rw [List.cons_append, splitOnChar, if_neg hc,
      ih fun hm => h (List.mem_cons_of_mem _ hm)]

theorem isDigit_props {c : Char} (h : c.isDigit = true) :
    isPyWS c = false ∧ c ≠ '+' ∧ c ≠ '-' ∧ c ≠ ':' ∧ c ≠ '_' := by
  refine ⟨?_, ?_, ?_, ?_, ?_⟩
  · cases hw : isPyWS c
    · rfl
    · exfalso
      simp only [isPyWS, Bool.or_eq_true, decide_eq_true_eq] at hw
      rcases hw with ((((((rfl | rfl) | rfl) | rfl) | rfl) | rfl) | rfl) <;>
        exact absurd h (by decide)
  all_goals (rintro rfl; exact absurd h (by decide))

theorem pyStrip_eq_self {l : List Char} (h : ∀ c ∈ l, isPyWS c = false) :
    pyStrip l = l := by
  have hdw : ∀ (m : List Char), (∀ c ∈ m, isPyWS c = false) →
      m.dropWhile isPyWS = m := by
    intro m hm
    cases m with
    | nil => rfl
    | cons c r =>
      have := hm c (List.mem_cons_self _ _)
      simp [List.dropWhile_cons, this]
  unfold pyStrip
  rw [hdw _ h, hdw _ fun c hc => h c (List.mem_reverse.mp hc), List.reverse_reverse]

theorem underscoreOk_digits {l : List Char} (hne : l ≠ [])
    (hd : ∀ c ∈ l, c.isDigit = true) : underscoreOk l = true := by
  have hlast : ∀ (m : List Char) (c : Char), (∀ x ∈ c :: m, x.isDigit = true) →
      (match (c :: m).getLast? with | some x => x.isDigit | none => false) = true := by
    intro m
    induction m with
    | nil => intro c hc; simpa using hc c (List.mem_cons_self _ _)
    | cons d r ih =>
      intro c hc
      rw [List.getLast?_cons_cons]
      exact ih d fun x hx => hc x (List.mem_cons_of_mem _ hx)
  unfold underscoreOk
  simp only [Bool.and_eq_true]
  refine ⟨⟨⟨?_, ?_⟩, ?_⟩, ?_⟩
  · cases l with
    | nil => exact absurd rfl hne
    | cons c r => exact hd c (List.mem_cons_self _ _)
  · cases l with
    | nil => exact absurd rfl hne
    | cons c r => exact hlast r c hd
  · rw [List.all_eq_true]
    intro c hc
    simp [hd c hc]
  · rw [List.all_eq_true]
    rintro ⟨a, b⟩ hab
    have ha := (List.of_mem_zip hab).1
    simp [(isDigit_props (hd a ha)).2.2.2.2]

theorem digitsCore_digits {l : List Char} (hne : l ≠ [])
    (hd : ∀ c ∈ l, c.isDigit = true) : digitsCore l = some (digitsVal l) := by
  unfold digitsCore
  rw [if_pos (underscoreOk_digits hne hd),
    List.filter_eq_self.mpr fun c hc => by simp [(isDigit_props (hd c hc)).2.2.2.2]]

theorem pyInt?_digits {l : List Char} (hne : l ≠ [])
    (hd : ∀ c ∈ l, c.isDigit = true) :
    pyInt? l = some (Int.ofNat (digitsVal l)) := by
  unfold pyInt?
  rw [pyStrip_eq_self fun c hc => (isDigit_props (hd c hc)).1]
  cases l with
  | nil => exact absurd rfl hne
  | cons c t =>
    have hc := hd c (List.mem_cons_self _ _)
    rw [pyIntCore, if_neg (isDigit_props hc).2.1, if_neg (isDigit_props hc).2.2.1,
      digitsCore_digits (by simp) hd]
    rfl

/-- Membership in the per-series game loop: a game tuple is produced
exactly for the 1-based positions whose cell parses, carrying that cell's
goals and overtime flag. -/
theorem mem_seriesGames :
    ∀ (cells : List String) (k : Nat) (g : Nat × Int × Int × String),
      g ∈ seriesGames k cells ↔
        ∃ i, ∃ h : i < cells.length,
          processScoreCell ((cells.get ⟨i, h⟩).toList) = some (g.2.1, g.2.2.1) ∧
          g.1 = k + i ∧ g.2.2.2 = overtimeFlag ((cells.get ⟨i, h⟩).toList) := by
  intro cells
  induction cells with
  | nil => intro k g; simp [seriesGames]
  | cons c rest ih =>
    intro k g
    obtain ⟨gn, ga, gb, got⟩ := g
    cases hp : processScoreCell c.toList with
    | some ab =>
      obtain ⟨a, b⟩ := ab
      simp only [seriesGames, hp, List.mem_cons]
      constructor
      · rintro (heq | hg')
        · simp only [Prod.mk.injEq] at heq
          obtain ⟨rfl, rfl, rfl, rfl⟩ := heq
          exact ⟨0, by simp, hp, by simp, rfl⟩
        · rcases (ih (k + 1) (gn, ga, gb, got)).mp hg' with ⟨i, hi, hpi, hk, hot⟩
          refine ⟨i + 1, by simp; omega, hpi, by simp at hk ⊢; omega, hot⟩
      · rintro ⟨i, hi, hpi, hk, hot⟩
        cases i with
        | zero =>
          left
          have hab : a = ga ∧ b = gb := by
            have := hp.symm.trans hpi
            simpa using this
          simp only [Prod.mk.injEq]
          exact ⟨by simpa using hk, hab.1.symm, hab.2.symm, hot⟩
        | succ i =>
          right
          refine (ih (k + 1) (gn, ga, gb, got)).mpr
            ⟨i, by simp at hi ⊢; omega, hpi, by simp at hk ⊢; omega, hot⟩
    | none =>
      simp only [seriesGames, hp]
      rw [ih (k + 1) (gn, ga, gb, got)]
      constructor
      · rintro ⟨i, hi, hpi, hk, hot⟩
        exact ⟨i + 1, by simp; omega, hpi, by simp at hk ⊢; omega, hot⟩
      · rintro ⟨i, hi, hpi, hk, hot⟩
        cases i with
        | zero =>
          rw [show ((c :: rest).get ⟨0, hi⟩) = c from rfl, hp] at hpi
          cases hpi
        | succ i =>
          exact ⟨i, by simp at hi ⊢; omega, hpi, by simp at hk ⊢; omega, hot⟩

/-- C3: a score cell whose cleaned text is `a:b` with both parts
non-empty digit strings yields the goal pair `(a, b)`; a cell without a
colon yields nothing; any produced pair comes from a two-part colon split
with both parts `int`-convertible; in a playoff series a failing cell at
position `i` contributes no record with game number `i + 1` while a
parsing cell always contributes its record — siblings are unaffected. -/
theorem score_cell_extraction :
    (∀ (raw s₁ s₂ : List Char),
      clean_score_text raw = s₁ ++ ':' :: s₂ → s₁ ≠ [] → s₂ ≠ [] →
      (∀ c ∈ s₁, c.isDigit = true) → (∀ c ∈ s₂, c.isDigit = true) →
      processScoreCell raw =
        some (Int.ofNat (digitsVal s₁), Int.ofNat (digitsVal s₂))) ∧
    (∀ raw : List Char, ':' ∉ raw → processScoreCell raw = none) ∧
    (∀ (raw : List Char) (a b : Int), processScoreCell raw = some (a, b) →
      ∃ x y, splitOnChar ':' (clean_score_text raw) = [x, y] ∧
        pyInt? x = some a ∧ pyInt? y = some b) ∧
    (∀ (url : String) (frac : Option ℚ) (p1 p2 : String × Option String)
        (ps : List (String × Option String)) (cells : List String) (i : Nat)
        (h : i < cells.dropLast.length),
      processScoreCell ((cells.dropLast.get ⟨i, h⟩).toList) = none →
      ∀ r ∈ extractSeries url frac ⟨p1 :: p2 :: ps, cells⟩,
        r.gameNo ≠ some (i + 1)) ∧
    (∀ (url : String) (frac : Option ℚ) (p1 p2 : String × Option String)
        (ps : List (String × Option String)) (cells : List String) (i : Nat)
        (h : i < cells.dropLast.length) (a b : Int),
      processScoreCell ((cells.dropLast.get ⟨i, h⟩).toList) = some (a, b) →
      ∃ r ∈ extractSeries url frac ⟨p1 :: p2 :: ps, cells⟩,
        r.gameNo = some (i + 1) ∧ r.g1 = a ∧ r.g2 = b) := by
  refine ⟨?_, ?_, ?_, ?_, ?_⟩
  · intro raw s₁ s₂ hclean h1 h2 hd1 hd2
    have hcolonc : ':' ∈ clean_score_text raw := by
      rw [hclean]
      exact List.mem_append_right _ (List.mem_cons_self _ _)
    have hcolon : ':' ∈ raw := mem_of_mem_clean hcolonc
    have hno1 : ':' ∉ s₁ := fun hm => absurd (hd1 ':' hm) (by decide)
    have hno2 : ':' ∉ s₂ := fun hm => absurd (hd2 ':' hm) (by decide)
    unfold processScoreCell
    rw [if_pos hcolon, hclean, splitOnChar_append s₂ hno1,
      splitOnChar_of_not_mem hno2]
    simp [pyInt?_digits h1 hd1, pyInt?_digits h2 hd2]
  · intro raw h
    unfold processScoreCell
    rw [if_neg h]
  · intro raw a b h
    unfold processScoreCell at h
    by_cases hc : ':' ∈ raw
    · rw [if_pos hc] at h
      cases hsp : splitOnChar ':' (clean_score_text raw) with
      | nil => rw [hsp] at h; simp at h
      | cons x t =>
        cases t with
        | nil => rw [hsp] at h; simp at h
        | cons y t₂ =>
          cases t₂ with
          | nil =>
            rw [hsp] at h
            cases hx : pyInt? x with
            | none => simp [hx] at h
            | some a' =>
              cases hy : pyInt? y with
              | none => simp [hx, hy] at h
              | some b' =>
                simp only [hx, hy, Option.some.injEq, Prod.mk.injEq] at h
                refine ⟨x, y, rfl, ?_, ?_⟩
                · rw [hx, h.1]
                · rw [hy, h.2]
          | cons z t₃ => rw [hsp] at h; simp at h
    · rw [if_neg hc] at h
      simp at h
  · intro url frac p1 p2 ps cells i h hfail r hr hgame
    simp only [extractSeries] at hr
    rcases List.mem_map.mp hr with ⟨g, hg, rfl⟩
    rcases (mem_seriesGames cells.dropLast 1 g).mp hg with ⟨j, hj, hpj, hk, -⟩
    have hg1 : g.1 = i + 1 := by simpa using hgame
    have hji : j = i := by omega
    subst hji
    rw [hfail] at hpj
    cases hpj
  · intro url frac p1 p2 ps cells i h a b hsucc
    have hmem := (mem_seriesGames cells.dropLast 1
      (1 + i, a, b, overtimeFlag ((cells.dropLast.get ⟨i, h⟩).toList))).mpr
      ⟨i, h, hsucc, rfl, rfl⟩
    refine ⟨⟨url, p1.1, p1.2, p2.1, p2.2, a, b,
        overtimeFlag ((cells.dropLast.get ⟨i, h⟩).toList), "Playoff", frac,
        some (1 + i)⟩, ?_, ?_, rfl, rfl⟩
    · simp only [extractSeries]
      exact List.mem_map_of_mem _ hmem
    · show some (1 + i) = some (i + 1)
      rw [Nat.add_comm]

theorem score_cell_extraction_witness :
    processScoreCell "3:1".toList = some (3, 1) ∧
    processScoreCell "30".toList = none :=
  ⟨score_cell_extraction.1 "3:1".toList ['3'] ['1'] (by decide) (by decide)
      (by decide) (by decide) (by decide),
   score_cell_extraction.2.1 "30".toList (by decide)⟩

/-! ## Claim C5

The claim's table (spellings `Semifinal`, `Match-for-third`, bare `1/8` …
`1/64`, listed from `Final` down) differs from the code's
`PLAYOFF_STAGE_MAP` (spellings `Semi-final`, `Match for the third place`,
`1/8 final` … `1/64 final`, iterated from `1/64 final` up), and the two
disagree on concrete labels. -/

/-- The claim's fixed table, in its listed order.  This definition follows
the spec's words (for comparison against the code's
`get_playoff_stage_fraction`), not the source. -/
def specPlayoffStageTable : List (String × ℚ) :=
  [("Final", 1),
   ("Match-for-third", 9/10),
   ("Semifinal", 1/2),
   ("Quarterfinal", 1/4),
   ("1/8", 1/8),
   ("1/16", 1/16),
   ("1/32", 1/32),
   ("1/64", 1/64)]

/-- The stage fraction as the claim words it: case-insensitive substring
match against the claim's fixed table.  Follows the spec's words, not the
source. -/
def specPlayoffStageFraction (stage_name : String) : Option ℚ :=
  let s := toLowerL (pyStrip stage_name.toList)
  specPlayoffStageTable.findSome? fun kv =>
    if isSub (toLowerL kv.1.toList) s then some kv.2 else none

/-- C5 counterexample: on the label `"1/8"` the claim's table yields
`0.125` (its `1/8` entry matches, under any matching order), but the code
matches none of its patterns (they all read `… final`) and yields a null
fraction. -/
theorem playoff_fraction_counterexample :
    get_playoff_stage_fraction "1/8" = none ∧
    specPlayoffStageFraction "1/8" = some (1/8) ∧
    (none : Option ℚ) ≠ some (1/8) :=
  ⟨by decide, rfl, by decide⟩

/-- C5 amended: the fraction is derived by case-insensitive substring
match against the code's table checked in insertion order — `1/64 final`
→ 1/64, `1/32 final` → 1/32, `1/16 final` → 1/16, `1/8 final` → 1/8,
`Quarterfinal` → 1/4, `Semi-final` → 1/2, `Final` → 1, `Match for the
third place` → 0.9 — and a label matching none of these patterns yields a
null fraction while the match records of the block are still produced
(same number of records, each with a null `RoundNumber`). -/
theorem playoff_fraction_table :
    (get_playoff_stage_fraction "1/64 final" = some (1/64) ∧
     get_playoff_stage_fraction "1/32 final" = some (1/32) ∧
     get_playoff_stage_fraction "1/16 final" = some (1/16) ∧
     get_playoff_stage_fraction "1/8 final" = some (1/8) ∧
     get_playoff_stage_fraction "Quarterfinal" = some (1/4) ∧
     get_playoff_stage_fraction "Semi-final" = some (1/2) ∧
     get_playoff_stage_fraction "Final" = some 1 ∧
     get_playoff_stage_fraction "Match for the third place" = some (9/10) ∧
     get_playoff_stage_fraction " QUARTERFINAL " = some (1/4)) ∧
    (∀ label : String,
      (∀ kv ∈ PLAYOFF_STAGE_MAP,
        isSub (toLowerL kv.1.toList) (toLowerL (pyStrip label.toList)) = false) →
      get_playoff_stage_fraction label = none) ∧
    (∀ (url : String) (frac frac' : Option ℚ) (sr : SeriesRow),
      (extractSeries url frac sr).length = (extractSeries url frac' sr).length) ∧
    (∀ (url label : String) (sr : SeriesRow) (r : MatchRec),
      get_playoff_stage_fraction label = none →
      r ∈ extractSeries url (get_playoff_stage_fraction label) sr →
      r.round = none) := by
  refine ⟨⟨rfl, rfl, rfl, rfl, rfl, rfl, rfl, rfl, rfl⟩, ?_, ?_, ?_⟩
  · intro label hnone
    unfold get_playoff_stage_fraction
    refine List.findSome?_eq_none_iff.mpr fun kv hkv => ?_
    rw [hnone kv hkv]
    rfl
  · intro url frac frac' sr
    unfold extractSeries
    match sr.players with
    | [] => rfl
    | [p] => rfl
    | p1 :: p2 :: ps => simp
  · intro url label sr r hfrac hr
    unfold extractSeries at hr
    match hp : sr.players with
    | [] => rw [hp] at hr; cases hr
    | [p] => rw [hp] at hr; cases hr
    | p1 :: p2 :: ps =>
      rw [hp] at hr
      rcases List.mem_map.mp hr with ⟨g, -, rfl⟩
      simpa using hfrac

/-- A series under an unrecognized subheader. -/
def c5serie : SeriesRow :=
  ⟨[("X", none), ("Y", none)], ["3:1", "1:2"]⟩

theorem playoff_fraction_table_witness :
    get_playoff_stage_fraction "Group A" = none ∧
    (⟨"u", "X", none, "Y", none, 3, 1, "No", "Playoff",
        get_playoff_stage_fraction "Group A", some 1⟩ : MatchRec).round = none :=
  ⟨playoff_fraction_table.2.1 "Group A" (by decide),
   playoff_fraction_table.2.2.2 "u" "Group A" c5serie _
     (playoff_fraction_table.2.1 "Group A" (by decide))
     (by decide)⟩

/-! ## Claim C6 -/

/-- C6 (code bug at line 329–331): the claim (and the `errors='coerce'`
of the code) intends `"Unknown"` / unparsable dates to become null, but
`.strftime('%Y-%m-%d')` is applied unconditionally to the coerced result,
and `NaT.strftime` raises `ValueError("NaTType does not support
strftime")`: an unparsable text raises instead of becoming null, while a
parsable `dd.mm.yyyy` text does become the ISO string. -/
theorem date_normalization_unknown_raises :
    normalizeDateCell (some "Unknown") = .error "NaTType does not support strftime" ∧
    normalizeDateCell (some "11.03.2023") = .ok (some "2023-03-11") ∧
    normalizeDateCell none = .ok none :=
  ⟨rfl, rfl, rfl⟩

/-! ## Claim C7 -/

/-- C7: a stage id in the injected already-ingested set is never fetched
(it does not appear in the fetch log) and contributes no rows: the run is
identical to the run on the stage list with that stage removed. -/
theorem ingested_stage_not_fetched (existing : List String) (date tname : String)
    (tid : Int) (stages : List StageEntry) (sid : String) (h : sid ∈ existing) :
    sid ∉ (runStages existing date tname tid stages).1 ∧
    runStages existing date tname tid stages =
      runStages existing date tname tid
        (stages.filter fun st => decide (st.sid ≠ sid)) := by
  induction stages with
  | nil => exact ⟨by simp [runStages], rfl⟩
  | cons st rest ih =>
    rcases ih with ⟨ih1, ih2⟩
    by_cases hst : st.sid ∈ existing
    · have hstep : runStages existing date tname tid (st :: rest) =
          runStages existing date tname tid rest := by
        simp [runStages, hst]
      by_cases heq : st.sid = sid
      · have hf : (st :: rest).filter (fun st => decide (st.sid ≠ sid)) =
            rest.filter (fun st => decide (st.sid ≠ sid)) := by
          simp [List.filter_cons, heq]
        rw [hstep, hf]
        exact ⟨ih1, ih2⟩
      · have hf : (st :: rest).filter (fun st => decide (st.sid ≠ sid)) =
            st :: rest.filter (fun st => decide (st.sid ≠ sid)) := by
          simp [List.filter_cons, heq]
        rw [hstep, hf]
        refine ⟨ih1, ?_⟩
        have hstep2 : runStages existing date tname tid
            (st :: rest.filter fun st => decide (st.sid ≠ sid)) =
            runStages existing date tname tid
              (rest.filter fun st => decide (st.sid ≠ sid)) := by
          simp [runStages, hst]
        rw [hstep2]
        exact ih2
    · have hne : st.sid ≠ sid := fun he => hst (he ▸ h)
      have hf : (st :: rest).filter (fun st => decide (st.sid ≠ sid)) =
          st :: rest.filter (fun st => decide (st.sid ≠ sid)) := by
        simp [List.filter_cons, hne]
      constructor
      · simp only [runStages, if_neg hst]
        intro hmem
        rcases List.mem_cons.mp hmem with he | hm
        · exact hne he.symm
        · exact ih1 hm
      · rw [hf]
        simp only [runStages, if_neg hst]
        rw [ih2]

/-- A stage whose id is in the ingested set, with a page that would yield
a record if it were fetched. -/
def c7stageIngested : StageEntry :=
  ⟨"5", "u5", [.plain (.grTable []
    [⟨some ("A1", some "3"), "A1", some ("A2", some "4"), "A2", some "1:0"⟩])], "1"⟩

/-- A fresh stage. -/
def c7stageNew : StageEntry :=
  ⟨"7", "u7", [.plain (.grTable []
    [⟨some ("B1", some "7"), "B1", some ("B2", some "8"), "B2", some "5:2"⟩])], "2"⟩

theorem ingested_stage_not_fetched_witness :
    ("5" : String) ∉ (runStages ["5"] "d" "T" 100 [c7stageIngested, c7stageNew]).1 ∧
    runStages ["5"] "d" "T" 100 [c7stageIngested, c7stageNew] =
      runStages ["5"] "d" "T" 100
        ([c7stageIngested, c7stageNew].filter fun st => decide (st.sid ≠ "5")) :=
  ingested_stage_not_fetched ["5"] "d" "T" 100 [c7stageIngested, c7stageNew] "5"
    (by decide)

/-! ## Claim C8 -/

theorem fetch_page_aux_skip_netErr (outcomes : Nat → FetchOutcome) :
    ∀ (j attempt sleeps remaining : Nat), j ≤ remaining →
      (∀ i, i < j → outcomes (attempt + i) = .netErr) →
      fetch_page_aux outcomes attempt remaining sleeps =
        fetch_page_aux outcomes (attempt + j) (remaining - j) (sleeps + j) := by
  intro j
  induction j with
  | zero => intro attempt sleeps remaining _ _; simp
  | succ j ih =>
    intro attempt sleeps remaining hle herr
    obtain ⟨r, rfl⟩ : ∃ r, remaining = r + 1 := ⟨remaining - 1, by omega⟩
    have h0 : outcomes attempt = .netErr := by simpa using herr 0 (by omega)
    rw [fetch_page_aux, h0]
    have herr' : ∀ i, i < j → outcomes (attempt + 1 + i) = .netErr := by
      intro i hi
      rw [show attempt + 1 + i = attempt + (i + 1) by omega]
      exact herr (i + 1) (by omega)
    rw [ih (attempt + 1) (sleeps + 1) r (by omega) herr',
      show attempt + 1 + j = attempt + (j + 1) by omega,
      show r - j = r + 1 - (j + 1) by omega,
      show sleeps + 1 + j = sleeps + (j + 1) by omega]

/-- C8: the page fetcher retries only network-level failures — after `j`
network errors an eventual 200 still returns the body (having slept `j`
times); `retries` straight network errors exhaust the limit and report an
absent result; a non-200 status stops the loop immediately (attempt
`j + 1` is the last regardless of the remaining budget) and returns an
absent result rather than raising; an absent metadata cell downstream
degrades to the `'Unknown'` tournament type. -/
theorem fetch_page_retry_behaviour :
    (∀ (retries : Nat) (outcomes : Nat → FetchOutcome) (j : Nat) (body : String),
      j < retries → (∀ i, i < j → outcomes i = .netErr) →
      outcomes j = .ok 200 body →
      fetch_page_retry retries outcomes = (some body, j + 1, j)) ∧
    (∀ (retries : Nat) (outcomes : Nat → FetchOutcome),
      (∀ i, i < retries → outcomes i = .netErr) →
      fetch_page_retry retries outcomes = (none, retries, retries)) ∧
    (∀ (retries : Nat) (outcomes : Nat → FetchOutcome) (j status : Nat) (body : String),
      j < retries → status ≠ 200 → (∀ i, i < j → outcomes i = .netErr) →
      outcomes j = .ok status body →
      fetch_page_retry retries outcomes = (none, j + 1, j)) ∧
    tournamentTypeOf none = "Unknown" := by
  refine ⟨?_, ?_, ?_, rfl⟩
  · intro retries outcomes j body hj herr hok
    unfold fetch_page_retry
    rw [fetch_page_aux_skip_netErr outcomes j 0 0 retries (by omega)
      (by simpa using herr)]
    simp only [Nat.zero_add]
    obtain ⟨r, hr⟩ : ∃ r, retries - j = r + 1 := ⟨retries - j - 1, by omega⟩
    rw [hr, fetch_page_aux, hok]
    simp
  · intro retries outcomes herr
    unfold fetch_page_retry
    rw [fetch_page_aux_skip_netErr outcomes retries 0 0 retries (by omega)
      (by simpa using herr)]
    simp only [Nat.zero_add]
    rw [Nat.sub_self]
    rfl
  · intro retries outcomes j status body hj hstatus herr hok
    unfold fetch_page_retry
    rw [fetch_page_aux_skip_netErr outcomes j 0 0 retries (by omega)
      (by simpa using herr)]
    simp only [Nat.zero_add]
    obtain ⟨r, hr⟩ : ∃ r, retries - j = r + 1 := ⟨retries - j - 1, by omega⟩
    rw [hr, fetch_page_aux, hok]
    simp [hstatus]

/-- One network error, then a 404. -/
def c8outcomes : Nat → FetchOutcome :=
  fun i => if i = 0 then .netErr else .ok 404 "err"

theorem fetch_page_retry_behaviour_witness :
    fetch_page_retry RETRY_LIMIT c8outcomes = (none, 2, 1) :=
  fetch_page_retry_behaviour.2.2.1 RETRY_LIMIT c8outcomes 1 404 "err"
    (by decide) (by decide)
    (fun i hi => by
      have h0 : i = 0 := Nat.lt_one_iff.mp hi
      rw [h0]
      rfl)
    rfl

/-! ## Claim C9 -/

/-- The quarterfinal series of the claim: two players, three game cells
and the aggregate cell `2:1`. -/
def c9serie : SeriesRow :=
  ⟨[("Alice", some "1"), ("Bob", some "2")], ["3:1", "2:4(OT)", "4:2", "2:1"]⟩

def c9doc : List TopNode :=
  [.plain (.subheader "Quarterfinal"), .plain (.grMatch [c9serie])]

/-- C9: extraction of the quarterfinal document yields exactly the three
per-game records, with 1-based game numbers, `RoundNumber = 0.25`,
overtime flags No/Yes/No, the goal pairs (3,1), (2,4), (4,2), and the
aggregate cell excluded. -/
theorem playoff_quarterfinal_example :
    get_match_info "u" c9doc =
      [⟨"u", "Alice", some "1", "Bob", some "2", 3, 1, "No", "Playoff", some (1/4), some 1⟩,
       ⟨"u", "Alice", some "1", "Bob", some "2", 2, 4, "Yes", "Playoff", some (1/4), some 2⟩,
       ⟨"u", "Alice", some "1", "Bob", some "2", 4, 2, "No", "Playoff", some (1/4), some 3⟩] :=
  rfl

/-! ## Claim C10

`soup.find('div', class_='saved-matches')` removes only the *first*
saved-matches section; `select` then searches the whole remaining tree,
so rows inside a second saved-matches section are still extracted.  The
claim is therefore false for documents with more than one such section,
and holds for the first section. -/

def c10rowA : RRRow :=
  ⟨some ("A1", some "3"), "A1", some ("A2", some "4"), "A2", some "1:0"⟩

def c10rowB : RRRow :=
  ⟨some ("B1", some "7"), "B1", some ("B2", some "8"), "B2", some "5:2"⟩

/-- A document whose only match rows live inside saved-matches sections. -/
def c10doc : List TopNode :=
  [.saved [.grTable [] [c10rowA]], .saved [.grTable [] [c10rowB]]]

/-- C10 counterexample: every node of `c10doc` is a saved-matches
section, yet extraction still emits the row of the second section. -/
theorem saved_matches_counterexample :
    (∀ n ∈ c10doc, n.isSaved = true) ∧
    get_match_info "u" c10doc =
      [⟨"u", "B1", some "7", "B2", some "8", 5, 2, "No", "Round-Robin", none, none⟩] :=
  ⟨by decide, rfl⟩

theorem removeFirstSaved_append (pre : List TopNode) (items : List PageItem)
    (post : List TopNode) (hpre : ∀ n ∈ pre, n.isSaved = false) :
    removeFirstSaved (pre ++ .saved items :: post) = pre ++ post := by
  induction pre with
  | nil => rfl
  | cons n pre ih =>
    match n with
    | .saved its => exact absurd (hpre _ (List.mem_cons_self _ _)) (by simp [TopNode.isSaved])
    | .plain i =>
      simp only [List.cons_append, removeFirstSaved, List.append_eq]
      rw [ih fun m hm => hpre m (List.mem_cons_of_mem _ hm)]

/-- C10 amended: the *first* saved-matches section is removed before
classification and extraction, so no extracted record originates from it:
the extraction result does not depend on that section's contents
(sections after the first are not removed and can still contribute). -/
theorem first_saved_matches_ignored (url : String) (pre : List TopNode)
    (items items' : List PageItem) (post : List TopNode)
    (hpre : ∀ n ∈ pre, n.isSaved = false) :
    get_match_info url (pre ++ .saved items :: post) =
      get_match_info url (pre ++ .saved items' :: post) := by
  unfold get_match_info
  rw [removeFirstSaved_append pre items post hpre,
    removeFirstSaved_append pre items' post hpre]

theorem first_saved_matches_ignored_witness :
    get_match_info "u" ([] ++ .saved [.grTable [] [c10rowA]] :: [.plain (.grTable [] [c10rowB])]) =
      get_match_info "u" ([] ++ .saved [] :: [.plain (.grTable [] [c10rowB])]) :=
  first_saved_matches_ignored "u" [] [.grTable [] [c10rowA]] [] [.plain (.grTable [] [c10rowB])]
    (by decide)

/-! ## Claim C4 -/

/-- C4: the merge step is idempotent — merging the same incoming batch a
second time into the already-merged dataset changes nothing, because every
incoming key already has a survivor. -/
theorem merge_idempotent (existing batch : List Row) :
    mergeStep (mergeStep existing batch) batch = mergeStep existing batch := by
  unfold mergeStep
  rw [dedupBy_append, dedupBy_eq_self (nodup_map_dedupBy)]
  have hnil : batch.filter (fun b =>
      decide (rowKey b ∉ (dedupBy rowKey (existing ++ batch)).map rowKey)) = [] := by
    refine List.filter_eq_nil_iff.mpr fun b hb => ?_
    simp only [decide_eq_true_iff, Decidable.not_not, not_not]
    exact mem_map_dedupBy.mpr (List.mem_map_of_mem rowKey (List.mem_append_right _ hb))
  rw [hnil]
  simp [dedupBy]

end Scorpion
